import Mathlib

/-!
Shallow embedding of the simple-kv repository (src/server.rs, src/bench.rs)
and verification of the specification claims about it.

Byte buffers are modelled as lists of natural numbers below 256, socket I/O
as explicit outcome oracles, and the event loop handlers as pure functions
over the corresponding state records.
-/

set_option maxRecDepth 4000

deriving instance DecidableEq for Except

/-- mio EventSet modelled as four readiness flags. -/
structure EventSet where
  readable : Bool
  writable : Bool
  error : Bool
  hup : Bool
  deriving DecidableEq, Repr

/-- Result of one read_to_end call on a non-blocking socket: Ok(0) at
immediate end of stream with nothing appended, Ok(n) with the n appended
bytes, Err(WouldBlock) with the bytes appended before blocking, or another
I/O error. -/
inductive ReadOutcome where
  | eof : ReadOutcome
  | okRead : List Nat → ReadOutcome
  | wouldBlock : List Nat → ReadOutcome
  | fatal : ReadOutcome
  deriving DecidableEq, Repr

/-- Result of one write call on a non-blocking socket: Ok(n) bytes written,
Err(WouldBlock), or another I/O error. -/
inductive WriteStep where
  | wrote : Nat → WriteStep
  | wouldBlock : WriteStep
  | errOther : WriteStep
  deriving DecidableEq, Repr

/-- Continuation byte test for UTF-8 (0x80 to 0xBF). -/
def contB (b : Nat) : Bool := 0x80 ≤ b && b ≤ 0xBF

/-- UTF-8 validation and decoding of a byte sequence into unicode scalar
values, as str::from_utf8 performs in Message::from_bytes. Returns none
exactly on invalid UTF-8. -/
def utf8Decode : List Nat → Option (List Char)
  | [] => some []
  | b :: rest =>
    if b ≤ 0x7F then
      match utf8Decode rest with
      | some cs => some (Char.ofNat b :: cs)
      | none => none
    else if 0xC2 ≤ b && b ≤ 0xDF then
      match rest with
      | b1 :: rest2 =>
        if contB b1 then
          match utf8Decode rest2 with
          | some cs => some (Char.ofNat ((b - 0xC0) * 0x40 + (b1 - 0x80)) :: cs)
          | none => none
        else none
      | [] => none
    else if 0xE0 ≤ b && b ≤ 0xEF then
      match rest with
      | b1 :: b2 :: rest3 =>
        if (if b = 0xE0 then decide (0xA0 ≤ b1 && b1 ≤ 0xBF)
            else if b = 0xED then decide (0x80 ≤ b1 && b1 ≤ 0x9F)
            else contB b1) && contB b2 then
          match utf8Decode rest3 with
          | some cs =>
            some (Char.ofNat ((b - 0xE0) * 0x1000 + (b1 - 0x80) * 0x40 + (b2 - 0x80)) :: cs)
          | none => none
        else none
      | _ => none
    else if 0xF0 ≤ b && b ≤ 0xF4 then
      match rest with
      | b1 :: b2 :: b3 :: rest4 =>
        if (if b = 0xF0 then decide (0x90 ≤ b1 && b1 ≤ 0xBF)
            else if b = 0xF4 then decide (0x80 ≤ b1 && b1 ≤ 0x8F)
            else contB b1) && contB b2 && contB b3 then
          match utf8Decode rest4 with
          | some cs =>
            some (Char.ofNat
              ((b - 0xF0) * 0x40000 + (b1 - 0x80) * 0x1000 + (b2 - 0x80) * 0x40 + (b3 - 0x80)) :: cs)
          | none => none
        else none
      | _ => none
    else none

/-- UTF-8 encoding of one unicode scalar value, as str::as_bytes exposes it. -/
def encodeChar (c : Char) : List Nat :=
  let n := c.toNat
  if n < 0x80 then [n]
  else if n < 0x800 then [0xC0 + n / 0x40, 0x80 + n % 0x40]
  else if n < 0x10000 then
    [0xE0 + n / 0x1000, 0x80 + n / 0x40 % 0x40, 0x80 + n % 0x40]
  else
    [0xF0 + n / 0x40000, 0x80 + n / 0x1000 % 0x40, 0x80 + n / 0x40 % 0x40, 0x80 + n % 0x40]

/-- The UTF-8 bytes of a string, as str::as_bytes. -/
def strBytes (s : String) : List Nat := s.toList.foldr (fun c acc => encodeChar c ++ acc) []

/-- Unicode white-space test used by str::split_whitespace
(char::is_whitespace, the White_Space property). -/
def isWhitespaceChar (c : Char) : Bool :=
  let n := c.toNat
  n = 0x20 || (0x9 ≤ n && n ≤ 0xD) || n = 0x85 || n = 0xA0 || n = 0x1680 ||
    (0x2000 ≤ n && n ≤ 0x200A) || n = 0x2028 || n = 0x2029 || n = 0x202F ||
    n = 0x205F || n = 0x3000

/-- Accumulator pass behind splitWS: acc holds the current token reversed. -/
def splitWSAux : List Char → List Char → List (List Char)
  | [], acc => if acc = [] then [] else [acc.reverse]
  | c :: rest, acc =>
    if isWhitespaceChar c then
      if acc = [] then splitWSAux rest [] else acc.reverse :: splitWSAux rest []
    else splitWSAux rest (c :: acc)

/-- str::split_whitespace: maximal runs of non-white-space characters, with
empty substrings discarded. -/
def splitWS (l : List Char) : List (List Char) := splitWSAux l []

namespace Server

/-- One decoded protocol unit, the Message enum of server.rs. -/
inductive Message where
  | Get : String → Message
  | Put : String → String → Message
  | Error : Message
  deriving DecidableEq, Repr

/-- Message::from_bytes of server.rs: UTF-8 decode the line, split it on
white space, then dispatch on the first token and the token count. -/
def Message.from_bytes (bytes : List Nat) : Message :=
  match utf8Decode bytes with
  | none => Message.Error
  | some line =>
    let words := splitWS line
    if words.length < 2 then Message.Error
    else if words.headD [] = "GET".toList then
      if words.length ≠ 2 then Message.Error
      else Message.Get (String.mk ((words.drop 1).headD []))
    else if words.headD [] = "PUT".toList then
      if words.length ≠ 3 then Message.Error
      else Message.Put (String.mk ((words.drop 1).headD []))
                       (String.mk ((words.drop 2).headD []))
    else Message.Error

end Server

namespace Server

/-- Per-connection state of the server (server.rs struct Connection): socket
handle, read buffer, write buffer, and the registered event interests. -/
structure Connection where
  socket : Nat
  read_buf : List Nat
  write_buf : List Nat
  events : EventSet
  deriving DecidableEq, Repr

/-- Connection::new: empty buffers, interest in readable, hup and error. -/
def Connection.new (socket : Nat) : Connection :=
  { socket := socket, read_buf := [], write_buf := [],
    events := { readable := true, writable := false, error := true, hup := true } }

/-- One step of the newline scan in Connection::readable. The pair p is one
entry of the enumeration of the newly read suffix, so p.1 is an index
relative to that suffix, while the line slice read_buf[lo..hi] and the
running lo index address the full buffer, exactly as in the source. -/
def scanStep (buf : List Nat) (acc : List Message × Nat) (p : Nat × Nat) :
    List Message × Nat :=
  if p.2 = 10 then (acc.1 ++ [Message.from_bytes ((buf.take p.1).drop acc.2)], p.1 + 1)
  else acc

/-- Connection::readable of server.rs: drain the socket into the read
buffer (modelled by the read outcome oracle), decode a Message from every
newline-terminated line found among the newly read bytes, and drain the
decoded bytes from the front of the buffer. Ok(0) returns at once with no
messages; WouldBlock is not an error; other errors propagate. -/
def Connection.readable (c : Connection) (r : ReadOutcome) :
    Except Unit (List Message × Connection) :=
  match r with
  | .eof => .ok ([], c)
  | .fatal => .error ()
  | .okRead bytes | .wouldBlock bytes =>
    let read_from := c.read_buf.length
    let buf := c.read_buf ++ bytes
    let res := (buf.drop read_from).enum.foldl (scanStep buf) ([], 0)
    .ok (res.1, { c with read_buf := buf.drop res.2 })

/-- Connection::send: register interest in writable events and append the
message bytes plus the newline terminator to the write buffer. -/
def Connection.send (c : Connection) (message : String) : Connection :=
  { c with events := { c.events with writable := true },
           write_buf := c.write_buf ++ strBytes message ++ [10] }

/-- The write loop of Connection::writable: k counts socket write calls,
idx is the index one past the last written byte. Ok(0) is a WriteZero
error; on WouldBlock the written bytes are drained from the buffer; when
the whole buffer has been written, writable interest is dropped and the
buffer cleared. -/
def writableLoop (c : Connection) (steps : Nat → WriteStep) (k idx : Nat) :
    Except Unit Connection :=
  if _h : idx < c.write_buf.length then
    match steps k with
    | .wrote 0 => .error ()
    | .wrote (n + 1) => writableLoop c steps (k + 1) (idx + n + 1)
    | .wouldBlock => .ok { c with write_buf := c.write_buf.drop idx }
    | .errOther => .error ()
  else .ok { c with write_buf := [], events := { c.events with writable := false } }
termination_by c.write_buf.length - idx
decreasing_by omega

/-- Connection::writable of server.rs. -/
def Connection.writable (c : Connection) (steps : Nat → WriteStep) :
    Except Unit Connection :=
  writableLoop c steps 0 0

/-- The in-memory HashMap of String to String, modelled extensionally. -/
def DB : Type := String → Option String

/-- HashMap::insert: overwrite any prior value for the key. -/
def dbInsert (db : DB) (k v : String) : DB :=
  fun q => if q = k then some v else db q

/-- The message loop of Server::connection_readable: for each decoded
message, answer a Get with the stored value or the literal NONE, apply a
Put to the map and answer OK, answer an Error frame with ERR. -/
def process (db : DB) (c : Connection) : List Message → DB × Connection
  | [] => (db, c)
  | .Get key :: ms => process db (c.send ((db key).getD "NONE")) ms
  | .Put key value :: ms => process (dbInsert db key value) (c.send "OK") ms
  | .Error :: ms => process db (c.send "ERR") ms

/-- Server::connection_readable: read and decode messages from the
connection, then run the message loop against the map. -/
def connection_readable (db : DB) (c : Connection) (r : ReadOutcome) :
    Except Unit (DB × Connection) :=
  match Connection.readable c r with
  | .error e => .error e
  | .ok (msgs, c1) => .ok (process db c1 msgs)

end Server

/-- mio::util::Slab, modelled as a fixed-length list of slots. -/
structure Slab (α : Type) where
  slots : List (Option α)
  deriving DecidableEq, Repr

/-- Slab::new_starting_at with the given capacity: all slots free. -/
def Slab.new (α : Type) (cap : Nat) : Slab α := ⟨List.replicate cap none⟩

/-- Slab indexing by slot number. -/
def Slab.get {α : Type} (s : Slab α) (i : Nat) : Option α := s.slots.getD i none

/-- Slab::insert: place the value in the first free slot, or fail with no
change when every slot is occupied. -/
def Slab.insert {α : Type} (s : Slab α) (a : α) : Option (Nat × Slab α) :=
  match s.slots.findIdx? Option.isNone with
  | none => none
  | some i => some (i, ⟨s.slots.set i (some a)⟩)

/-- Slab::remove: free the slot. -/
def Slab.remove {α : Type} (s : Slab α) (i : Nat) : Slab α := ⟨s.slots.set i none⟩

/-- Number of occupied slots. -/
def Slab.count {α : Type} (s : Slab α) : Nat := s.slots.countP Option.isSome

/-- Whether every slot is occupied (insert would fail). -/
def Slab.isFull {α : Type} (s : Slab α) : Bool := (s.slots.findIdx? Option.isNone).isNone

namespace Server

/-- Maximum number of concurrent clients (server.rs SLAB_SIZE). -/
def SLAB_SIZE : Nat := 4096

/-- The Server struct: connection table and key-value map. The listener
socket itself carries no state the claims touch. -/
structure ServerSt where
  connections : Slab Connection
  db : DB

/-- The server state built by Server::start: a slab of SLAB_SIZE free
slots starting at token 1, and an empty map. -/
def initial : ServerSt := ⟨Slab.new Connection SLAB_SIZE, fun _ => none⟩

/-- One accepted socket with the outcome of its register_opt call. -/
inductive AcceptEvent where
  | sock : Nat → Bool → AcceptEvent
  deriving DecidableEq, Repr

/-- Server::accept_connections: for every pending accept, insert a fresh
connection into the slab and register it with read-only interest; if the
slab is full the socket is dropped with no registration; if registration
fails the connection is removed again. Returns the state and the tokens
registered (slot index plus one, slab tokens starting at 1). -/
def accept_connections : ServerSt → List AcceptEvent → ServerSt × List Nat
  | st, [] => (st, [])
  | st, .sock id regOk :: rest =>
    match st.connections.insert (Connection.new id) with
    | some (i, slab1) =>
      if regOk then
        let r := accept_connections { st with connections := slab1 } rest
        (r.1, (i + 1) :: r.2)
      else accept_connections { st with connections := slab1.remove i } rest
    | none => accept_connections st rest

/-- Server ready (the Handler impl) for a connection token: error and hup
events remove the connection at once; otherwise readable then writable are
dispatched, an Err from either removes the connection, and finally the
connection is re-registered for its current interest set (rereg gives the
outcome; failure removes the connection). Token 0 is the listener and is
handled by accept_connections instead. -/
def ready (st : ServerSt) (token : Nat) (ev : EventSet) (r : ReadOutcome)
    (wsteps : Nat → WriteStep) (rereg : Bool) : ServerSt :=
  if token = 0 then st
  else
    match st.connections.get (token - 1) with
    | none => st
    | some c0 =>
      if ev.error then { st with connections := st.connections.remove (token - 1) }
      else if ev.hup then { st with connections := st.connections.remove (token - 1) }
      else
        match (if ev.readable then connection_readable st.db c0 r else .ok (st.db, c0)) with
        | .error _ => { st with connections := st.connections.remove (token - 1) }
        | .ok (db1, c1) =>
          match (if ev.writable then Connection.writable c1 wsteps else .ok c1) with
          | .error _ =>
            { st with db := db1, connections := st.connections.remove (token - 1) }
          | .ok c2 =>
            if rereg then
              { st with db := db1,
                        connections := ⟨st.connections.slots.set (token - 1) (some c2)⟩ }
            else
              { st with db := db1,
                        connections :=
                          (Slab.remove ⟨st.connections.slots.set (token - 1) (some c2)⟩
                            (token - 1)) }

end Server

namespace Bench

/-- Per-connection state of the benchmark (bench.rs struct Connection):
socket, read buffer, write buffer, total bytes sent, and the FIFO of send
timestamps (front is the oldest). -/
structure Connection where
  socket : Nat
  read_buf : List Nat
  write_buf : List Nat
  bytes_sent : Nat
  send_times : List Nat
  deriving DecidableEq, Repr

/-- slice::chunks(3): successive 3-byte chunks, the last possibly shorter. -/
def chunks3 : List Nat → List (List Nat)
  | [] => []
  | [a] => [[a]]
  | [a, b] => [[a, b]]
  | a :: b :: c :: rest => [a, b, c] :: chunks3 rest

/-- The assertion in Bench::readable: every 3-byte chunk of the read buffer
equals the bytes of the OK response line. -/
def allOK (buf : List Nat) : Bool := (chunks3 buf).all (fun ch => ch == [79, 75, 10])

/-- Outcome of Bench::readable: the assertion fired (process-aborting
panic), an I/O error (unwrapped by ready, also process-aborting), or
success with the histogram increments recorded and the new connection
state. -/
inductive ReadResult where
  | panicked : ReadResult
  | ioError : ReadResult
  | okR : List Nat → Connection → ReadResult
  deriving DecidableEq, Repr

/-- Body of Bench::readable after the socket drain appended the given
bytes: assert the buffer is a sequence of OK lines, count the responses,
drain them, bin one latency per response against the send-timestamp queue
iterated newest-first, and truncate the queue keeping its oldest entries. -/
def readableCore (recv_time : Nat) (c : Connection) (bytes : List Nat) : ReadResult :=
  let buf := c.read_buf ++ bytes
  if allOK buf then
    let responses := buf.length / 3
    .okR ((c.send_times.reverse.take responses).map (fun t => recv_time - t))
      { c with read_buf := buf.drop (responses * 3),
               send_times := c.send_times.take (c.send_times.length - responses) }
  else .panicked

/-- Bench::readable of bench.rs: recv_time is taken before the drain; a
WouldBlock drain is not an error; other errors propagate (and ready
unwraps them). -/
def readable (recv_time : Nat) (c : Connection) (r : ReadOutcome) : ReadResult :=
  match r with
  | .fatal => .ioError
  | .eof => readableCore recv_time c []
  | .okRead bytes | .wouldBlock bytes => readableCore recv_time c bytes

/-- The readable dispatch inside the benchmark Handler: readable(token) is
unwrapped, so a panic or an Err aborts the whole process (none); there is
no per-connection removal path. -/
def ready (recv_time : Nat) (c : Connection) (r : ReadOutcome) : Option Connection :=
  match readable recv_time c r with
  | .panicked => none
  | .ioError => none
  | .okR _ c1 => some c1

/-- One upper-case hexadecimal digit. -/
def hexDigit (n : Nat) : Nat := if n < 10 then 48 + n else 55 + n

/-- The 16-digit zero-padded upper-case hexadecimal key written by
write!(.., a 016X format, entries_written). -/
def hex16 (n : Nat) : List Nat :=
  (List.range 16).map (fun i => hexDigit (n / 16 ^ (15 - i) % 16))

/-- One synthesized benchmark message: PUT, a space, the 16-digit key, a
space, val_size random value bytes, and the newline. Its length is always
22 + val_size, the message_size of Bench::writable. -/
def synthMessage (ew : Nat) (rand : Nat → Nat → Nat) (val_size : Nat) : List Nat :=
  [80, 85, 84, 32] ++ hex16 ew ++ [32] ++ (List.range val_size).map (rand ew) ++ [10]

/-- The fill loop of Bench::writable: append synthesized messages until the
write buffer holds at least message_size * batch_size bytes, advancing
entries_written. Returns the buffer and the new entries_written. -/
def refill (wb : List Nat) (ew : Nat) (rand : Nat → Nat → Nat)
    (val_size batch_size : Nat) : List Nat × Nat :=
  if wb.length < (22 + val_size) * batch_size then
    refill (wb ++ synthMessage ew rand val_size) (ew + 1) rand val_size batch_size
  else (wb, ew)
termination_by (22 + val_size) * batch_size - wb.length
decreasing_by
  simp only [List.length_append, synthMessage, hex16, List.length_map, List.length_range,
    List.length_cons, List.length_nil]
  omega

/-- The write loop of Bench::writable: k counts socket write calls, idx is
one past the last written byte; Ok(0) is a WriteZero error, WouldBlock
breaks out of the loop with the current idx. -/
def benchWriteLoop (buflen : Nat) (steps : Nat → WriteStep) (k idx : Nat) :
    Except Unit Nat :=
  if _h : idx < buflen then
    match steps k with
    | .wrote 0 => .error ()
    | .wrote (n + 1) => benchWriteLoop buflen steps (k + 1) (idx + n + 1)
    | .wouldBlock => .ok idx
    | .errOther => .error ()
  else .ok idx
termination_by buflen - idx
decreasing_by omega

/-- Bench::writable of bench.rs: refill the write buffer, write as much as
the socket accepts, then count messages_sent as
(bytes_sent + idx) / message_size - bytes_sent / message_size, record that
many copies of the send timestamp, and drain the written bytes. The
bytes_sent field is returned unchanged, exactly as in the source, which
never updates it. -/
def writable (c : Connection) (ew : Nat) (rand : Nat → Nat → Nat)
    (val_size batch_size : Nat) (steps : Nat → WriteStep) (send_time : Nat) :
    Except Unit (Connection × Nat) :=
  let message_size := 22 + val_size
  let r := refill c.write_buf ew rand val_size batch_size
  match benchWriteLoop r.1.length steps 0 0 with
  | .error e => .error e
  | .ok idx =>
    let messages_sent := (c.bytes_sent + idx) / message_size - c.bytes_sent / message_size
    .ok ({ c with write_buf := r.1.drop idx,
                  send_times := c.send_times ++ List.replicate messages_sent send_time },
         r.2)

end Bench

/-- Response list the spec prescribes for a frame sequence (spec-side
definition for the refinement comparison in claim C4): the stored value or
NONE for a Get, OK for a Put applied to the map, ERR for an Error frame,
one response per frame in order. -/
def specRespList (db : Server.DB) : List Server.Message → List String
  | [] => []
  | .Get key :: ms => ((db key).getD "NONE") :: specRespList db ms
  | .Put key value :: ms => "OK" :: specRespList (Server.dbInsert db key value) ms
  | .Error :: ms => "ERR" :: specRespList db ms

/-- Map state the spec prescribes after a frame sequence (spec-side
definition for claim C4): Put overwrites, Get and Error leave the map
unchanged. -/
def specDbAfter (db : Server.DB) : List Server.Message → Server.DB
  | [] => db
  | .Get _ :: ms => specDbAfter db ms
  | .Put key value :: ms => specDbAfter (Server.dbInsert db key value) ms
  | .Error :: ms => specDbAfter db ms

/-- The write-interest invariant of claim C8: the interest set contains
writable exactly when the write buffer is non-empty. -/
def winv (c : Server.Connection) : Prop :=
  c.events.writable = true ↔ c.write_buf ≠ []

instance (c : Server.Connection) : Decidable (winv c) := by
  unfold winv
  infer_instance

/-- C1: the claim that a line delivered in pieces over several readable
events decodes to the same Frame as the same line in a single read fails on
the code: delivering GET key newline whole decodes Get key and empties the
buffer, but delivering it as GET-space-k then ey-newline decodes the bogus
two-byte line GE (an Error frame) and leaves a stale buffer that still
contains a line terminator, because the scan indexes the newly read suffix
with slice-relative positions but slices the line out of the full buffer. -/
theorem C1_split_line_decode_diverges :
    (Server.Connection.readable (Server.Connection.new 7)
        (.okRead [71, 69, 84, 32, 107, 101, 121, 10]) =
      .ok ([Server.Message.Get "key"], Server.Connection.new 7)) ∧
    (Server.Connection.readable (Server.Connection.new 7)
        (.okRead [71, 69, 84, 32, 107]) =
      .ok ([], { Server.Connection.new 7 with read_buf := [71, 69, 84, 32, 107] })) ∧
    (Server.Connection.readable
        { Server.Connection.new 7 with read_buf := [71, 69, 84, 32, 107] }
        (.okRead [101, 121, 10]) =
      .ok ([Server.Message.Error],
        { Server.Connection.new 7 with read_buf := [32, 107, 101, 121, 10] })) ∧
    Server.Message.Error ≠ Server.Message.Get "key" := by
  refine ⟨by decide, by decide, by decide, by decide⟩

/-- C2: the code does not match send timestamps to responses in FIFO order.
With outstanding send timestamps 10 (oldest) and 20 (newest) and one OK
response received at time 30, the histogram increment is 30 - 20 = 10
(newest matched) and the queue keeps the oldest timestamp 10, where the
claim requires the increment 30 - 10 = 20 and the queue to keep 20. -/
theorem C2_latency_matching_is_lifo :
    Bench.readable 30 ⟨0, [], [], 0, [10, 20]⟩ (.okRead [79, 75, 10]) =
      .okR [10] ⟨0, [], [], 0, [10]⟩ := by decide

/-- C3: the code counts messages_sent with the cross-tick formula
(bytes_sent + idx) / message_size - bytes_sent / message_size, but the
bytes_sent field is never advanced, so the count degenerates to this tick's
idx / message_size. With val_size 1 (message_size 23) and batch_size 1, a
tick that flushes 20 bytes of the first message followed by a tick that
flushes its remaining 3 bytes records no send timestamp at all, although
the final byte of one whole message has been transmitted; the claim
requires exactly one timestamp for it. -/
theorem C3_send_accounting_misses_split_message :
    (Bench.writable ⟨0, [], [], 0, []⟩ 0 (fun _ _ => 65) 1 1
        (fun k => if k = 0 then .wrote 20 else .wouldBlock) 111 =
      .ok (⟨0, [], [32, 65, 10], 0, []⟩, 1)) ∧
    (Bench.writable ⟨0, [], [32, 65, 10], 0, []⟩ 1 (fun _ _ => 65) 1 1
        (fun k => if k = 0 then .wrote 3 else .wouldBlock) 222 =
      .ok (⟨0, [],
        [80, 85, 84, 32, 48, 48, 48, 48, 48, 48, 48, 48, 48, 48, 48, 48, 48, 48, 48, 49,
         32, 65, 10],
        0, []⟩, 2)) := by
  constructor
  · simp [Bench.writable, Bench.refill, Bench.benchWriteLoop, Bench.synthMessage,
      Bench.hex16, Bench.hexDigit, List.range_succ]
  · simp [Bench.writable, Bench.refill, Bench.benchWriteLoop, Bench.synthMessage,
      Bench.hex16, Bench.hexDigit, List.range_succ]

/-- A buffer whose length is not a multiple of 3 always ends in a chunk
shorter than 3 bytes, so the all-chunks-are-OK assertion is false. -/
theorem allOK_of_mod_ne : ∀ (fuel : Nat) (l : List Nat), l.length ≤ fuel →
    l.length % 3 ≠ 0 → Bench.allOK l = false := by
  intro fuel
  induction fuel with
  | zero =>
    intro l hl h3
    rcases l with _ | ⟨a, t⟩
    · simp at h3
    · simp at hl
  | succ n ih =>
    intro l hl h3
    rcases l with _ | ⟨a, _ | ⟨b, _ | ⟨c, rest⟩⟩⟩
    · simp at h3
    · simp [Bench.allOK, Bench.chunks3]
    · simp [Bench.allOK, Bench.chunks3]
    · have hrest : Bench.allOK rest = false := by
        apply ih rest
        · simp at hl; omega
        · simp at h3 ⊢; omega
      simp [Bench.allOK, Bench.chunks3] at hrest ⊢
      intro _ _ _
      exact hrest

/-- C9: whenever a read leaves the benchmark read buffer with a length that
is not a multiple of 3 - including a legal partial delivery of an OK
response - the chunks-of-3 assertion in Bench::readable fails, so the call
panics and the ready dispatch aborts the whole process (none), instead of
buffering the partial bytes or confining the fault to that connection. -/
theorem C9_partial_ok_response_panics (rt : Nat) (c : Bench.Connection) (bytes : List Nat)
    (h : (c.read_buf ++ bytes).length % 3 ≠ 0) :
    Bench.readable rt c (.okRead bytes) = .panicked ∧
    Bench.ready rt c (.okRead bytes) = none := by
  have hOK : Bench.allOK (c.read_buf ++ bytes) = false :=
    allOK_of_mod_ne (c.read_buf ++ bytes).length _ le_rfl h
  constructor
  · simp [Bench.readable, Bench.readableCore, hOK]
  · simp [Bench.ready, Bench.readable, Bench.readableCore, hOK]

/-- Witness for C9: the first two bytes of a split OK response. -/
theorem C9_partial_ok_response_panics_witness :
    Bench.readable 5 ⟨0, [79], [], 0, []⟩ (.okRead [75]) = .panicked ∧
    Bench.ready 5 ⟨0, [79], [], 0, []⟩ (.okRead [75]) = none :=
  C9_partial_ok_response_panics 5 ⟨0, [79], [], 0, []⟩ [75] (by decide)

/-- C6: a partial write of n bytes (0 < n < buffer length) followed by a
WouldBlock result drains exactly the written n-byte prefix from the write
buffer and leaves the remaining suffix buffered unchanged, with no byte
duplicated or lost (the original buffer is the written prefix followed by
the remainder) and interest flags untouched. -/
theorem C6_partial_write_keeps_suffix (c : Server.Connection) (n : Nat)
    (h0 : 0 < n) (h1 : n < c.write_buf.length) :
    Server.Connection.writable c (fun k => if k = 0 then .wrote n else .wouldBlock) =
      .ok { c with write_buf := c.write_buf.drop n } ∧
    c.write_buf = c.write_buf.take n ++ c.write_buf.drop n ∧
    (c.write_buf.drop n).length = c.write_buf.length - n := by
  obtain ⟨m, rfl⟩ : ∃ m, n = m + 1 := ⟨n - 1, by omega⟩
  refine ⟨?_, (List.take_append_drop _ _).symm, List.length_drop _ _⟩
  rw [Server.Connection.writable, Server.writableLoop.eq_def]
  rw [dif_pos (by omega : 0 < c.write_buf.length)]
  norm_num
  rw [Server.writableLoop.eq_def]
  rw [dif_pos (by omega : m + 1 < c.write_buf.length)]
  norm_num

/-- Witness for C6: the transport accepts 5 bytes of a 12-byte buffered
message, and exactly the last 7 bytes remain buffered. -/
theorem C6_partial_write_keeps_suffix_witness :
    Server.Connection.writable
        ⟨1, [], [0, 1, 2, 3, 4, 5, 6, 7, 8, 9, 10, 11], ⟨true, true, true, true⟩⟩
        (fun k => if k = 0 then .wrote 5 else .wouldBlock) =
      .ok ⟨1, [], [5, 6, 7, 8, 9, 10, 11], ⟨true, true, true, true⟩⟩ := by
  have h := (C6_partial_write_keeps_suffix
    ⟨1, [], [0, 1, 2, 3, 4, 5, 6, 7, 8, 9, 10, 11], ⟨true, true, true, true⟩⟩
    5 (by decide) (by decide)).1
  exact h.trans (by rfl)

/-- A successful run of the write loop either stopped at WouldBlock after
draining the written prefix j (interest flags untouched), or flushed the
whole buffer, clearing it and dropping writable interest. -/
theorem writableLoop_ok_cases (c : Server.Connection) (steps : Nat → WriteStep) :
    ∀ (fuel k idx : Nat) (c1 : Server.Connection), c.write_buf.length - idx ≤ fuel →
      Server.writableLoop c steps k idx = .ok c1 →
      (∃ j, j < c.write_buf.length ∧ c1 = { c with write_buf := c.write_buf.drop j }) ∨
      c1 = { c with write_buf := [], events := { c.events with writable := false } } := by
  intro fuel
  induction fuel with
  | zero =>
    intro k idx c1 hf h
    rw [Server.writableLoop.eq_def] at h
    rw [dif_neg (by omega)] at h
    right
    injection h with h
    exact h.symm
  | succ n ih =>
    intro k idx c1 hf h
    rw [Server.writableLoop.eq_def] at h
    by_cases hidx : idx < c.write_buf.length
    · rw [dif_pos hidx] at h
      cases hs : steps k with
      | wrote nn =>
        rw [hs] at h
        cases nn with
        | zero => simp at h
        | succ m =>
          simp only [] at h
          exact ih (k + 1) (idx + m + 1) c1 (by omega) h
      | wouldBlock =>
        rw [hs] at h
        left
        refine ⟨idx, hidx, ?_⟩
        injection h with h
        exact h.symm
      | errOther =>
        rw [hs] at h
        simp at h
    · rw [dif_neg hidx] at h
      right
      injection h with h
      exact h.symm

/-- Connection::send always establishes the write-interest invariant. -/
theorem send_winv (c : Server.Connection) (s : String) :
    winv (Server.Connection.send c s) := by
  simp [winv, Server.Connection.send]

/-- The message loop preserves the write-interest invariant. -/
theorem process_winv : ∀ (ms : List Server.Message) (db : Server.DB)
    (c : Server.Connection), winv c → winv (Server.process db c ms).2 := by
  intro ms
  induction ms with
  | nil => intro db c h; exact h
  | cons m rest ih =>
    intro db c h
    cases m with
    | Get k => exact ih _ _ (send_winv _ _)
    | Put k v => exact ih _ _ (send_winv _ _)
    | Error => exact ih _ _ (send_winv _ _)

/-- A successful Connection::readable changes only the read buffer. -/
theorem readable_ok_parts (c : Server.Connection) (r : ReadOutcome)
    (msgs : List Server.Message) (c1 : Server.Connection)
    (h : Server.Connection.readable c r = .ok (msgs, c1)) :
    c1.events = c.events ∧ c1.write_buf = c.write_buf := by
  cases r with
  | eof =>
    simp [Server.Connection.readable] at h
    rw [← h.2]
    exact ⟨rfl, rfl⟩
  | fatal => simp [Server.Connection.readable] at h
  | okRead bytes =>
    simp [Server.Connection.readable] at h
    rw [← h.2]
    exact ⟨rfl, rfl⟩
  | wouldBlock bytes =>
    simp [Server.Connection.readable] at h
    rw [← h.2]
    exact ⟨rfl, rfl⟩


/-- C8: the interest set contains writable exactly when the write buffer is
non-empty, across every operation: it holds of a fresh connection; send
establishes it, and on an empty buffer adds writable interest while making
the buffer non-empty; a successful writable flush preserves it, and drops
writable interest only when it has emptied the buffer; and a successful
readable pass (decode plus responses) preserves it. -/
theorem C8_writable_interest_iff_nonempty :
    winv (Server.Connection.new 0) ∧
    (∀ (c : Server.Connection) (s : String), winv (Server.Connection.send c s)) ∧
    (∀ (c : Server.Connection) (s : String), c.write_buf = [] →
      (Server.Connection.send c s).events.writable = true ∧
      (Server.Connection.send c s).write_buf ≠ []) ∧
    (∀ (c : Server.Connection) (steps : Nat → WriteStep) (c1 : Server.Connection),
      Server.Connection.writable c steps = .ok c1 → winv c → winv c1) ∧
    (∀ (c : Server.Connection) (steps : Nat → WriteStep) (c1 : Server.Connection),
      Server.Connection.writable c steps = .ok c1 →
      c.events.writable = true → c1.events.writable = false → c1.write_buf = []) ∧
    (∀ (db : Server.DB) (c : Server.Connection) (r : ReadOutcome)
      (p : Server.DB × Server.Connection),
      Server.connection_readable db c r = .ok p → winv c → winv p.2) := by
  refine ⟨by decide, send_winv, ?_, ?_, ?_, ?_⟩
  · intro c s _
    exact ⟨by simp [Server.Connection.send], by simp [Server.Connection.send]⟩
  · intro c steps c1 h hw
    rcases writableLoop_ok_cases c steps (c.write_buf.length - 0) 0 0 c1 le_rfl h with
      ⟨j, hj, rfl⟩ | rfl
    · have hne : c.write_buf ≠ [] := by
        intro hnil
        rw [hnil] at hj
        simp at hj
      have hwr : c.events.writable = true := hw.mpr hne
      have hlen : (c.write_buf.drop j).length = c.write_buf.length - j :=
        List.length_drop _ _
      simp only [winv]
      constructor
      · intro _ hnil2
        rw [hnil2] at hlen
        simp at hlen
        omega
      · intro _
        exact hwr
    · simp [winv]
  · intro c steps c1 h hw1 hw2
    rcases writableLoop_ok_cases c steps (c.write_buf.length - 0) 0 0 c1 le_rfl h with
      ⟨j, hj, rfl⟩ | rfl
    · simp at hw2
      rw [hw1] at hw2
      exact absurd hw2 (by simp)
    · rfl
  · intro db c r p h hw
    unfold Server.connection_readable at h
    cases hr : Server.Connection.readable c r with
    | error e =>
      rw [hr] at h
      simp at h
    | ok q =>
      obtain ⟨msgs, c1⟩ := q
      rw [hr] at h
      simp at h
      have hparts := readable_ok_parts c r msgs c1 hr
      have hw1 : winv c1 := by
        show c1.events.writable = true ↔ c1.write_buf ≠ []
        rw [hparts.1, hparts.2]
        exact hw
      rw [← h]
      exact process_winv msgs db c1 hw1

/-- Witness for C8: a readable pass decoding the unparsable line consisting
of the single byte F queues the ERR response and leaves the invariant
holding on the resulting connection. -/
theorem C8_writable_interest_iff_nonempty_witness :
    winv ({ socket := 0, read_buf := [], write_buf := [69, 82, 82, 10],
            events := ⟨true, true, true, true⟩ } : Server.Connection) :=
  C8_writable_interest_iff_nonempty.2.2.2.2.2 (fun _ => none) (Server.Connection.new 0)
    (.okRead [70, 10])
    ((fun _ => none), ⟨0, [], [69, 82, 82, 10], ⟨true, true, true, true⟩⟩)
    (by rfl) (by decide)

/-- The map produced by the message loop is the spec-side map. -/
theorem process_fst : ∀ (ms : List Server.Message) (db : Server.DB)
    (c : Server.Connection), (Server.process db c ms).1 = specDbAfter db ms := by
  intro ms
  induction ms with
  | nil => intro db c; rfl
  | cons m rest ih =>
    intro db c
    cases m with
    | Get k => exact ih _ _
    | Put k v => exact ih _ _
    | Error => exact ih _ _

/-- The message loop appends exactly the encoded spec-side responses, one
per message and in message order, to the write buffer. -/
theorem process_wbuf : ∀ (ms : List Server.Message) (db : Server.DB)
    (c : Server.Connection),
    (Server.process db c ms).2.write_buf =
      c.write_buf ++ ((specRespList db ms).map (fun resp => strBytes resp ++ [10])).flatten := by
  intro ms
  induction ms with
  | nil => intro db c; simp [Server.process, specRespList]
  | cons m rest ih =>
    intro db c
    cases m with
    | Get k =>
      rw [show Server.process db c (.Get k :: rest) =
        Server.process db (c.send ((db k).getD "NONE")) rest from rfl]
      rw [ih]
      simp [Server.Connection.send, specRespList]
    | Put k v =>
      rw [show Server.process db c (.Put k v :: rest) =
        Server.process (Server.dbInsert db k v) (c.send "OK") rest from rfl]
      rw [ih]
      simp [Server.Connection.send, specRespList]
    | Error =>
      rw [show Server.process db c (.Error :: rest) =
        Server.process db (c.send "ERR") rest from rfl]
      rw [ih]
      simp [Server.Connection.send, specRespList]

/-- The spec-side response list has exactly one response per message. -/
theorem specRespList_length : ∀ (ms : List Server.Message) (db : Server.DB),
    (specRespList db ms).length = ms.length := by
  intro ms
  induction ms with
  | nil => intro db; rfl
  | cons m rest ih =>
    intro db
    cases m with
    | Get k => simp [specRespList, ih]
    | Put k v => simp [specRespList, ih]
    | Error => simp [specRespList, ih]

/-- C4: the server handler refines the spec-side semantics: the final map
is the spec map (Put overwrites, Get and Error frames leave it unchanged),
the write buffer gains exactly the encoded responses in decode order with
one response per input frame, a Get is answered with the stored value or
the literal NONE, a Put is answered with OK and a later Get of the same key
returns the value just written, and an Error frame is answered ERR. -/
theorem C4_handler_semantics (db : Server.DB) (c : Server.Connection)
    (ms : List Server.Message) :
    (Server.process db c ms).1 = specDbAfter db ms ∧
    (Server.process db c ms).2.write_buf =
      c.write_buf ++ ((specRespList db ms).map (fun resp => strBytes resp ++ [10])).flatten ∧
    (specRespList db ms).length = ms.length ∧
    (∀ key, specRespList db (.Get key :: ms) = ((db key).getD "NONE") :: specRespList db ms) ∧
    (∀ k v rest, specRespList db (.Put k v :: .Get k :: rest) =
      "OK" :: v :: specRespList (Server.dbInsert db k v) rest) ∧
    (∀ rest, specDbAfter db (.Error :: rest) = specDbAfter db rest ∧
      specRespList db (.Error :: rest) = "ERR" :: specRespList db rest) := by
  refine ⟨process_fst ms db c, process_wbuf ms db c, specRespList_length ms db, ?_, ?_, ?_⟩
  · intro key
    rfl
  · intro k v rest
    simp [specRespList, Server.dbInsert]
  · intro rest
    exact ⟨rfl, rfl⟩

/-- C5: characterization of Message::from_bytes. Decoding yields Get k
exactly when the bytes are valid UTF-8 and split on white space into
exactly the two tokens GET and the key; Put k v exactly when they split
into exactly the three tokens PUT, key and value; and an Error frame
exactly when the bytes are invalid UTF-8, or fewer than 2 tokens result,
or the first token is GET with a token count other than 2, or PUT with a
token count other than 3, or neither GET nor PUT. -/
theorem C5_decode_characterization (bytes : List Nat) :
    (∀ k, Server.Message.from_bytes bytes = .Get k ↔
      ∃ line kc, utf8Decode bytes = some line ∧ splitWS line = ["GET".toList, kc] ∧
        k = String.mk kc) ∧
    (∀ k v, Server.Message.from_bytes bytes = .Put k v ↔
      ∃ line kc vc, utf8Decode bytes = some line ∧
        splitWS line = ["PUT".toList, kc, vc] ∧ k = String.mk kc ∧ v = String.mk vc) ∧
    (Server.Message.from_bytes bytes = .Error ↔
      utf8Decode bytes = none ∨ ∃ line, utf8Decode bytes = some line ∧
        ((splitWS line).length < 2 ∨
         ((splitWS line).headD [] = "GET".toList ∧ (splitWS line).length ≠ 2) ∨
         ((splitWS line).headD [] = "PUT".toList ∧ (splitWS line).length ≠ 3) ∨
         ((splitWS line).headD [] ≠ "GET".toList ∧
          (splitWS line).headD [] ≠ "PUT".toList))) := by
  cases hu : utf8Decode bytes with
  | none =>
    refine ⟨fun k => ?_, fun k v => ?_, ?_⟩ <;>
      simp [Server.Message.from_bytes, hu]
  | some line =>
    rcases hw : splitWS line with - | ⟨w0, - | ⟨w1, - | ⟨w2, - | ⟨w3, ws⟩⟩⟩⟩
    · refine ⟨fun k => ?_, fun k v => ?_, ?_⟩ <;>
        simp [Server.Message.from_bytes, hu, hw]
    · refine ⟨fun k => ?_, fun k v => ?_, ?_⟩ <;>
        simp [Server.Message.from_bytes, hu, hw]
    · by_cases hg : w0 = ['G', 'E', 'T']
      · subst hg
        refine ⟨fun k => ?_, fun k v => ?_, ?_⟩ <;>
          simp [Server.Message.from_bytes, hu, hw, eq_comm, and_assoc]
      · by_cases hp : w0 = ['P', 'U', 'T']
        · subst hp
          refine ⟨fun k => ?_, fun k v => ?_, ?_⟩ <;>
            simp [Server.Message.from_bytes, hu, hw, eq_comm, and_assoc]
        · refine ⟨fun k => ?_, fun k v => ?_, ?_⟩ <;>
            simp [Server.Message.from_bytes, hu, hw, hg, hp, eq_comm]
    · by_cases hg : w0 = ['G', 'E', 'T']
      · subst hg
        refine ⟨fun k => ?_, fun k v => ?_, ?_⟩ <;>
          simp [Server.Message.from_bytes, hu, hw, eq_comm, and_assoc]
      · by_cases hp : w0 = ['P', 'U', 'T']
        · subst hp
          refine ⟨fun k => ?_, fun k v => ?_, ?_⟩ <;>
            simp [Server.Message.from_bytes, hu, hw, eq_comm, and_assoc]
        · refine ⟨fun k => ?_, fun k v => ?_, ?_⟩ <;>
            simp [Server.Message.from_bytes, hu, hw, hg, hp, eq_comm]
    · by_cases hg : w0 = ['G', 'E', 'T']
      · subst hg
        refine ⟨fun k => ?_, fun k v => ?_, ?_⟩ <;>
          simp [Server.Message.from_bytes, hu, hw, eq_comm, and_assoc]
      · by_cases hp : w0 = ['P', 'U', 'T']
        · subst hp
          refine ⟨fun k => ?_, fun k v => ?_, ?_⟩ <;>
            simp [Server.Message.from_bytes, hu, hw, eq_comm, and_assoc]
        · refine ⟨fun k => ?_, fun k v => ?_, ?_⟩ <;>
            simp [Server.Message.from_bytes, hu, hw, hg, hp, eq_comm]

/-- Reading a slot just written in a list of optional slots. -/
theorem getD_set_self {α : Type} : ∀ (l : List (Option α)) (i : Nat) (a : Option α),
    i < l.length → (l.set i a).getD i none = a := by
  intro l
  induction l with
  | nil => intro i a h; simp at h
  | cons x t ih =>
    intro i a h
    cases i with
    | zero => rfl
    | succ j =>
      show (t.set j a).getD j none = a
      exact ih j a (by simpa using h)

/-- An occupied slot index is within the slot list. -/
theorem getD_lt_length {α : Type} : ∀ (l : List (Option α)) (i : Nat) (c : α),
    l.getD i none = some c → i < l.length := by
  intro l
  induction l with
  | nil => intro i c h; simp [List.getD] at h
  | cons x t ih =>
    intro i c h
    cases i with
    | zero => simp
    | succ j =>
      have := ih j c h
      simpa using Nat.succ_lt_succ this

/-- C7 counterexample: with a single registered connection and a readable
event whose socket drain returns the zero-length end-of-stream result, the
reactor step completes with the connection still in the table: the read
path treats Ok(0) as a successful no-op read (no messages, state
unchanged) and removes nothing. -/
theorem C7_zero_read_connection_stays :
    (Server.ready ⟨⟨[some (Server.Connection.new 3)]⟩, fun _ => none⟩ 1
        ⟨true, false, false, false⟩ .eof (fun _ => .wouldBlock) true).connections.get 0 =
      some (Server.Connection.new 3) ∧
    (Server.ready ⟨⟨[some (Server.Connection.new 3)]⟩, fun _ => none⟩ 1
        ⟨true, false, false, false⟩ .eof (fun _ => .wouldBlock) true).connections.get 0 ≠
      none ∧
    Server.Connection.readable (Server.Connection.new 3) .eof =
      .ok ([], Server.Connection.new 3) := by
  refine ⟨rfl, ?_, rfl⟩
  intro h
  rw [show (Server.ready ⟨⟨[some (Server.Connection.new 3)]⟩, fun _ => none⟩ 1
      ⟨true, false, false, false⟩ .eof (fun _ => .wouldBlock) true).connections.get 0 =
    some (Server.Connection.new 3) from rfl] at h
  exact Option.noConfusion h

/-- C7 amended: a zero-length read result is handled as a successful no-op
read: Connection::readable returns Ok with no messages and the connection
unchanged, and a reactor step that dispatches only this readable event
(no error or hup flags, re-registration succeeding) leaves the connection
in the table; removal happens only through error or hup events, I/O
errors, or re-registration failure. -/
theorem C7_amended_zero_read_is_noop (st : Server.ServerSt) (tok : Nat)
    (c : Server.Connection) (wsteps : Nat → WriteStep) (ev : EventSet)
    (h1 : st.connections.get (tok - 1) = some c) (h2 : tok ≠ 0)
    (h3 : ev.error = false) (h4 : ev.hup = false) (h5 : ev.writable = false)
    (h6 : ev.readable = true) :
    Server.Connection.readable c .eof = .ok ([], c) ∧
    (Server.ready st tok ev .eof wsteps true).connections.get (tok - 1) = some c := by
  refine ⟨rfl, ?_⟩
  unfold Server.ready
  rw [if_neg h2, h1]
  simp only [h3, h4, h5, h6, Bool.false_eq_true, if_false, if_true,
    Server.connection_readable, Server.Connection.readable, Server.process]
  have hlt : tok - 1 < st.connections.slots.length :=
    getD_lt_length _ _ _ h1
  exact getD_set_self _ _ _ hlt

/-- Witness for the amended C7: a two-slot table with the connection at
token 2; after the zero-length read the connection is still there. -/
theorem C7_amended_zero_read_is_noop_witness :
    Server.Connection.readable (Server.Connection.new 9) .eof =
      .ok ([], Server.Connection.new 9) ∧
    (Server.ready ⟨⟨[none, some (Server.Connection.new 9)]⟩, fun _ => none⟩ 2
        ⟨true, false, false, false⟩ .eof (fun _ => .wouldBlock) true).connections.get 1 =
      some (Server.Connection.new 9) :=
  C7_amended_zero_read_is_noop ⟨⟨[none, some (Server.Connection.new 9)]⟩, fun _ => none⟩ 2
    (Server.Connection.new 9) (fun _ => .wouldBlock) ⟨true, false, false, false⟩
    (by rfl) (by decide) rfl rfl rfl rfl

/-- C10: the capacity constant is 4096 and the server starts with a table
of that many slots; the number of occupied slots never exceeds the slot
count, and insert and remove keep the slot count fixed; and when every
slot is occupied, an accepted socket is processed as a pure skip: no
insertion, no registration token, and a state identical to ignoring the
accept, so existing connections and the map are untouched and no response
is ever queued for the dropped socket. -/
theorem C10_connection_capacity :
    Server.SLAB_SIZE = 4096 ∧
    Server.initial.connections.slots.length = Server.SLAB_SIZE ∧
    (∀ (s : Slab Server.Connection), s.count ≤ s.slots.length) ∧
    (∀ (s : Slab Server.Connection) (a : Server.Connection) (i : Nat)
      (s1 : Slab Server.Connection),
      s.insert a = some (i, s1) → s1.slots.length = s.slots.length) ∧
    (∀ (s : Slab Server.Connection) (i : Nat),
      (s.remove i).slots.length = s.slots.length) ∧
    (∀ (st : Server.ServerSt) (id : Nat) (regOk : Bool)
      (rest : List Server.AcceptEvent),
      st.connections.isFull = true →
      Server.accept_connections st (.sock id regOk :: rest) =
        Server.accept_connections st rest) := by
  refine ⟨rfl, by simp [Server.initial, Slab.new], ?_, ?_, ?_, ?_⟩
  · intro s
    exact List.countP_le_length _
  · intro s a i s1 h
    unfold Slab.insert at h
    cases hf : s.slots.findIdx? Option.isNone with
    | none =>
      rw [hf] at h
      simp at h
    | some j =>
      rw [hf] at h
      simp at h
      rw [← h.2]
      simp
  · intro s i
    simp [Slab.remove]
  · intro st id regOk rest hFull
    have hins : st.connections.insert (Server.Connection.new id) = none := by
      unfold Slab.insert
      unfold Slab.isFull at hFull
      cases hf : st.connections.slots.findIdx? Option.isNone with
      | none => rfl
      | some j =>
        rw [hf] at hFull
        simp at hFull
    rw [show Server.accept_connections st (.sock id regOk :: rest) =
      (match st.connections.insert (Server.Connection.new id) with
       | some (i, slab1) =>
         if regOk then
           let r := Server.accept_connections { st with connections := slab1 } rest
           (r.1, (i + 1) :: r.2)
         else Server.accept_connections { st with connections := slab1.remove i } rest
       | none => Server.accept_connections st rest) from rfl]
    rw [hins]

/-- Witness for C10: a full one-slot table; the accept is a pure skip. -/
theorem C10_connection_capacity_witness :
    Server.accept_connections ⟨⟨[some (Server.Connection.new 5)]⟩, fun _ => none⟩
        [.sock 8 true] =
      Server.accept_connections ⟨⟨[some (Server.Connection.new 5)]⟩, fun _ => none⟩ [] :=
  C10_connection_capacity.2.2.2.2.2 ⟨⟨[some (Server.Connection.new 5)]⟩, fun _ => none⟩
    8 true [] (by rfl)
